import Mathlib

/-!
Verification of the layered HTTP client of `toridoriv/fanfic-tools`.

The development shallowly embeds the data model and the algorithms of the
client: JavaScript plain objects and the web `Headers` collection become
association lists, the configuration-merge and interceptor-merge algorithms
(`HttpClient.mergeConfig`, `HttpClient.mergeHeaders`,
`HttpClient.mergeInterceptors`), the request and response value objects
(`HttpRequest`, `HttpResponse`) and the relevant fields of `ConfigSchema`
are transcribed as executable Lean functions, and a small explicit store
models object identity where claims speak about aliasing and mutation.
-/

/- ## Association lists as JavaScript objects

A JavaScript object is modelled by its list of own enumerable properties in
insertion order.  Lookup returns the value of the first entry with the given
key; real objects never hold duplicate keys, which theorems record as a
`Nodup` hypothesis on the key list where it matters. -/

/-- Lookup of key `k` among the own properties of an object. -/
def alookup {V : Type} (k : String) : List (String × V) → Option V
  | [] => none
  | (k1, v) :: tl => if k1 = k then some v else alookup k tl

/-- Property assignment `obj[k] = v`: replaces the first entry carrying key
`k` in place, or appends a new entry.  This is both the behaviour of
JavaScript object assignment (as performed by `Object.assign`) and of
`Headers.prototype.set` after name normalisation. -/
def setKey {V : Type} (k : String) (v : V) : List (String × V) → List (String × V)
  | [] => [(k, v)]
  | (k1, v1) :: tl => if k1 = k then (k, v) :: tl else (k1, v1) :: setKey k v tl

/-- Key list of an object. -/
def keysOf {V : Type} (m : List (String × V)) : List String := m.map Prod.fst

/-- Copying every entry of `es`, in order, onto `m` by repeated assignment.
This is the shape shared by `Object.assign(m, es)` and by
`HttpClient.setToHeaders` (part_001 lines 681-687). -/
def foldAssign {V : Type} (m : List (String × V)) (es : List (String × V)) :
    List (String × V) :=
  es.foldl (fun acc p => setKey p.1 p.2 acc) m

theorem alookup_setKey_self {V : Type} (k : String) (v : V) (m : List (String × V)) :
    alookup k (setKey k v m) = some v := by
  induction m with
  | nil => simp [alookup, setKey]
  | cons hd tl ih =>
    obtain ⟨k1, v1⟩ := hd
    by_cases h : k1 = k
    · simp [setKey, alookup, h]
    · simp [setKey, alookup, h, ih]

theorem alookup_setKey_ne {V : Type} (k q : String) (v : V) (m : List (String × V))
    (hne : k ≠ q) : alookup q (setKey k v m) = alookup q m := by
  induction m with
  | nil => simp [alookup, setKey, hne]
  | cons hd tl ih =>
    obtain ⟨k1, v1⟩ := hd
    by_cases h : k1 = k
    · subst h
      simp [setKey, alookup, hne]
    · simp [setKey, alookup, h, ih]

theorem alookup_eq_none_of_not_mem {V : Type} (k : String) (m : List (String × V))
    (h : k ∉ keysOf m) : alookup k m = none := by
  induction m with
  | nil => rfl
  | cons hd tl ih =>
    obtain ⟨k1, v1⟩ := hd
    simp only [keysOf, List.map_cons, List.mem_cons, not_or] at h
    simp only [alookup, if_neg (fun heq : k1 = k => h.1 heq.symm)]
    exact ih h.2

theorem keysOf_setKey {V : Type} (k : String) (v : V) (m : List (String × V)) :
    keysOf (setKey k v m) =
      if k ∈ keysOf m then keysOf m else keysOf m ++ [k] := by
  induction m with
  | nil => simp [setKey, keysOf]
  | cons hd tl ih =>
    obtain ⟨k1, v1⟩ := hd
    by_cases h : k1 = k
    · subst h
      simp [setKey, keysOf]
    · have hne : ¬ k = k1 := fun e => h e.symm
      simp only [setKey, if_neg h, keysOf, List.map_cons] at ih ⊢
      rw [ih]
      by_cases hm : k ∈ List.map Prod.fst tl
      · simp [hm, hne]
      · simp [hm, hne]

theorem mem_keysOf_setKey {V : Type} (q k : String) (v : V) (m : List (String × V))
    (h : q ∈ keysOf (setKey k v m)) : q = k ∨ q ∈ keysOf m := by
  rw [keysOf_setKey] at h
  by_cases hm : k ∈ keysOf m
  · rw [if_pos hm] at h
    exact Or.inr h
  · rw [if_neg hm] at h
    rcases List.mem_append.mp h with h1 | h1
    · exact Or.inr h1
    · exact Or.inl (by simpa using h1)

theorem nodup_keysOf_setKey {V : Type} (k : String) (v : V) (m : List (String × V))
    (h : (keysOf m).Nodup) : (keysOf (setKey k v m)).Nodup := by
  rw [keysOf_setKey]
  by_cases hm : k ∈ keysOf m
  · rwa [if_pos hm]
  · rw [if_neg hm]
    simp [List.nodup_append, h, hm]

/-- Precedence of repeated assignment: after copying `es` (whose keys are
free of duplicates, as the keys of a JavaScript object always are) onto `m`,
a lookup sees the value from `es` when `es` carries the key and the value
from `m` otherwise. -/
theorem alookup_foldAssign {V : Type} (k : String) (es m : List (String × V))
    (hnd : (keysOf es).Nodup) :
    alookup k (foldAssign m es) = (alookup k es).or (alookup k m) := by
  induction es generalizing m with
  | nil => simp [foldAssign, alookup]
  | cons hd tl ih =>
    obtain ⟨k1, v1⟩ := hd
    simp only [keysOf, List.map_cons, List.nodup_cons] at hnd
    have step : alookup k (foldAssign (setKey k1 v1 m) tl) =
        (alookup k tl).or (alookup k (setKey k1 v1 m)) :=
      ih _ hnd.2
    show alookup k (foldAssign (setKey k1 v1 m) tl) = _
    rw [step]
    by_cases hk : k1 = k
    · subst hk
      have htl : alookup k1 tl = none :=
        alookup_eq_none_of_not_mem _ _ (by simpa [keysOf] using hnd.1)
      rw [htl, alookup_setKey_self]
      simp [alookup, Option.none_or, Option.or_some]
    · rw [alookup_setKey_ne _ _ _ _ hk]
      simp only [alookup, if_neg hk]

theorem nodup_keysOf_foldAssign {V : Type} (es m : List (String × V))
    (h : (keysOf m).Nodup) : (keysOf (foldAssign m es)).Nodup := by
  induction es generalizing m with
  | nil => simpa [foldAssign]
  | cons hd tl ih =>
    show (keysOf (foldAssign (setKey hd.1 hd.2 m) tl)).Nodup
    exact ih _ (nodup_keysOf_setKey _ _ _ h)

/- ## Header name normalisation

The web `Headers` collection treats header names case-insensitively by
normalising them to ASCII lowercase on every `set` and `get`. -/

/-- ASCII lowercasing of a single character, as performed by the `Headers`
name normalisation of the fetch standard. -/
def lowerChar (c : Char) : Char :=
  if 65 ≤ c.toNat ∧ c.toNat ≤ 90 then Char.ofNat (c.toNat + 32) else c

/-- ASCII lowercasing of a header name. -/
def lowerStr (s : String) : String := ⟨s.data.map lowerChar⟩

theorem lowerChar_idem (c : Char) : lowerChar (lowerChar c) = lowerChar c := by
  unfold lowerChar
  by_cases h : 65 ≤ c.toNat ∧ c.toNat ≤ 90
  · rw [if_pos h]
    have hv : Nat.isValidChar (c.toNat + 32) := Or.inl (by omega)
    have ht : (Char.ofNat (c.toNat + 32)).toNat = c.toNat + 32 := by
      unfold Char.ofNat
      rw [dif_pos hv]
      rfl
    rw [if_neg]
    rw [ht]
    omega
  · simp only [if_neg h]

theorem lowerStr_idem (s : String) : lowerStr (lowerStr s) = lowerStr s := by
  show String.mk ((s.data.map lowerChar).map lowerChar) = String.mk (s.data.map lowerChar)
  refine congrArg String.mk ?_
  rw [List.map_map]
  exact List.map_congr_left (fun c _ => lowerChar_idem c)

/- ## The Headers collection

A `Headers` object is an association list whose stored keys are already
lowercased; `hset` and `hget` normalise the supplied name first, matching
`Headers.prototype.set` and `Headers.prototype.get`. -/

/-- Model of `headers.set(name, value)`. -/
def hset (h : List (String × String)) (k v : String) : List (String × String) :=
  setKey (lowerStr k) v h

/-- Model of `headers.get(name)` (case-insensitive lookup). -/
def hget (h : List (String × String)) (k : String) : Option String :=
  alookup (lowerStr k) h

/-- Transcription of `HttpClient.setToHeaders` (part_001 lines 681-687):
sets every entry onto the given headers collection, in order. -/
def setToHeaders (h : List (String × String)) (es : List (String × String)) :
    List (String × String) :=
  es.foldl (fun acc e => hset acc e.1 e.2) h

/-- Entry list with every key lowercased; used to state which names an
input header map provides, case-insensitively. -/
def lowerEntries (es : List (String × String)) : List (String × String) :=
  es.map (fun p => (lowerStr p.1, p.2))

/-- Headers argument of `HttpClient.mergeHeaders`: either absent
(`undefined`) or a collection of entries (a `Headers` instance delivers its
entries through `entries()`, a plain record through `Object.entries`; both
are entry lists here). -/
def entriesOrNil : Option (List (String × String)) → List (String × String)
  | some es => es
  | none => []

/-- Transcription of `HttpClient.mergeHeaders` (part_001 lines 655-671):
a fresh collection receives the entries of `a`, then the entries of `b`,
absent arguments being skipped. -/
def mergeHeaders (a b : Option (List (String × String))) : List (String × String) :=
  setToHeaders (setToHeaders [] (entriesOrNil a)) (entriesOrNil b)

theorem setToHeaders_eq_foldAssign (h es : List (String × String)) :
    setToHeaders h es = foldAssign h (lowerEntries es) := by
  show es.foldl (fun acc e => setKey (lowerStr e.1) e.2 acc) h = _
  rw [foldAssign, lowerEntries, List.foldl_map]

/-- Lookup through headers copied by `setToHeaders`: the entries win over
the base collection, read case-insensitively, provided the lowercased keys
of the copied entries hold no duplicates. -/
theorem hget_setToHeaders (h es : List (String × String)) (k : String)
    (hnd : (keysOf (lowerEntries es)).Nodup) :
    hget (setToHeaders h es) k =
      (alookup (lowerStr k) (lowerEntries es)).or (hget h k) := by
  rw [hget, setToHeaders_eq_foldAssign, alookup_foldAssign _ _ _ hnd, hget]

/-- A headers collection built by the client stores only lowercased keys. -/
def LoweredKeys (m : List (String × String)) : Prop :=
  ∀ p ∈ m, lowerStr p.1 = p.1

theorem loweredKeys_setKey (m : List (String × String)) (k v : String)
    (h : LoweredKeys m) : LoweredKeys (setKey (lowerStr k) v m) := by
  induction m with
  | nil =>
    intro p hp
    simp only [setKey, List.mem_singleton] at hp
    subst hp
    exact lowerStr_idem k
  | cons hd tl ih =>
    intro p hp
    by_cases he : hd.1 = lowerStr k
    · obtain ⟨k1, v1⟩ := hd
      simp only at he
      simp only [setKey, if_pos he, List.mem_cons] at hp
      rcases hp with hp | hp
      · subst hp
        exact lowerStr_idem k
      · exact h p (List.mem_cons_of_mem _ hp)
    · obtain ⟨k1, v1⟩ := hd
      simp only at he
      simp only [setKey, if_neg he, List.mem_cons] at hp
      rcases hp with hp | hp
      · subst hp
        exact h (k1, v1) (List.mem_cons_self _ _)
      · exact ih (fun q hq => h q (List.mem_cons_of_mem _ hq)) p hp

theorem loweredKeys_setToHeaders (h es : List (String × String))
    (hl : LoweredKeys h) : LoweredKeys (setToHeaders h es) := by
  induction es generalizing h with
  | nil => exact hl
  | cons hd tl ih =>
    show LoweredKeys (setToHeaders (hset h hd.1 hd.2) tl)
    exact ih _ (loweredKeys_setKey _ _ _ hl)

theorem nodup_keysOf_setToHeaders (h es : List (String × String))
    (hnd : (keysOf h).Nodup) : (keysOf (setToHeaders h es)).Nodup := by
  rw [setToHeaders_eq_foldAssign]
  exact nodup_keysOf_foldAssign _ _ hnd

theorem loweredKeys_mergeHeaders (a b : Option (List (String × String))) :
    LoweredKeys (mergeHeaders a b) :=
  loweredKeys_setToHeaders _ _
    (loweredKeys_setToHeaders _ _ (fun p hp => absurd hp (List.not_mem_nil p)))

theorem nodup_keysOf_mergeHeaders (a b : Option (List (String × String))) :
    (keysOf (mergeHeaders a b)).Nodup :=
  nodup_keysOf_setToHeaders _ _
    (nodup_keysOf_setToHeaders _ _ (by simp [keysOf]))

theorem lowerEntries_of_loweredKeys (es : List (String × String))
    (h : LoweredKeys es) : lowerEntries es = es := by
  induction es with
  | nil => rfl
  | cons hd tl ih =>
    show (lowerStr hd.1, hd.2) :: lowerEntries tl = hd :: tl
    rw [h hd (List.mem_cons_self _ _), ih (fun q hq => h q (List.mem_cons_of_mem _ hq))]

/-- Case-insensitive lookup in the merge of two header maps: the second map
wins when it provides the name, otherwise the first map answers. -/
theorem hget_mergeHeaders (ea eb : List (String × String)) (k : String)
    (hnda : (keysOf (lowerEntries ea)).Nodup)
    (hndb : (keysOf (lowerEntries eb)).Nodup) :
    hget (mergeHeaders (some ea) (some eb)) k =
      (alookup (lowerStr k) (lowerEntries eb)).or
        (alookup (lowerStr k) (lowerEntries ea)) := by
  rw [mergeHeaders]
  show hget (setToHeaders (setToHeaders [] ea) eb) k = _
  rw [hget_setToHeaders _ _ _ hndb, hget_setToHeaders _ _ _ hnda]
  simp [hget, alookup, Option.or_none]

/- ## Configuration objects

A configuration input (`Http.ConfigInput`) is a JavaScript object; its
`headers` property is singled out because `HttpClient.mergeConfig`
destructures it away before assigning the remaining (scalar) properties. -/

/-- Primitive JavaScript values carried by the scalar configuration
fields (method, path, origin, delay, cache mode and so on). -/
inductive Prim where
  | str (s : String)
  | num (n : Int)
  | bool (b : Bool)
  | null
  | undef
deriving DecidableEq, Repr

/-- A configuration input object: its scalar own properties in insertion
order, plus the optional `headers` property (an entry list when present). -/
structure ConfigInput where
  scalars : List (String × Prim)
  headers : Option (List (String × String))
deriving DecidableEq, Repr

/-- Model of `Object.assign({...}, aRest, bRest)`: the properties of `a`
are installed first, then every property of `b` is assigned over them. -/
def objAssign (a b : List (String × Prim)) : List (String × Prim) :=
  foldAssign a b

/-- Transcription of `HttpClient.mergeConfig` (part_001 lines 638-645):
the `headers` properties are split off and merged by `mergeHeaders`; the
remaining properties are combined by `Object.assign` with the second
configuration winning. -/
def mergeConfig (a b : ConfigInput) : ConfigInput :=
  { scalars := objAssign a.scalars b.scalars
    headers := some (mergeHeaders a.headers b.headers) }

/-- Reading a scalar (non-headers) field of a configuration. -/
def getScalar (c : ConfigInput) (k : String) : Option Prim :=
  alookup k c.scalars

/-- Reading a header of a configuration, case-insensitively; `none` when
the configuration has no `headers` property or the name is absent. -/
def getHeader (c : ConfigInput) (k : String) : Option String :=
  match c.headers with
  | some h => hget h k
  | none => none

/- ## Interceptor bundles

Request and response interceptors are compared by function identity
(`Array.prototype.includes` inside `mergeInterceptors` and
`addInterceptors`); each distinct function object is represented by a
natural-number identity. -/

/-- One step of the push-if-absent loop of `HttpClient.mergeInterceptors`
(part_001 lines 615-625) and of `addInterceptors`. -/
def pushIfNew (acc : List Nat) (x : Nat) : List Nat :=
  if acc.contains x then acc else acc ++ [x]

/-- Running the push-if-absent loop over a whole list. -/
def dedupGo (acc l : List Nat) : List Nat :=
  l.foldl pushIfNew acc

/-- De-duplication keeping the first occurrence, starting from an empty
target array. -/
def dedupFirst (l : List Nat) : List Nat :=
  dedupGo [] l

/-- Interceptor bundle input (`Http.InterceptorsInput`): each list may be
absent. -/
structure InterceptorsInput where
  request : Option (List Nat)
  response : Option (List Nat)
deriving DecidableEq, Repr

/-- A complete interceptor bundle (`Http.Interceptors`). -/
structure Interceptors where
  request : List Nat
  response : List Nat
deriving DecidableEq, Repr

/-- Transcription of `HttpClient.mergeInterceptors` (part_001 lines
598-628): the two request lists are spread into one array (an absent list
contributing nothing, through `getValueOrDefault`), then pushed one by one
into a fresh array unless already present; likewise for response lists. -/
def mergeInterceptors (a b : InterceptorsInput) : Interceptors :=
  { request := dedupGo [] (a.request.getD [] ++ b.request.getD [])
    response := dedupGo [] (a.response.getD [] ++ b.response.getD []) }

/-- Promoting a complete bundle back to an input, as happens when a bundle
produced by one merge is handed to another merge. -/
def toInput (i : Interceptors) : InterceptorsInput :=
  ⟨some i.request, some i.response⟩

theorem dedupGo_append (acc l1 l2 : List Nat) :
    dedupGo acc (l1 ++ l2) = dedupGo (dedupGo acc l1) l2 :=
  List.foldl_append _ _ _ _

theorem dedupGo_prefix (acc l : List Nat) :
    ∃ t, dedupGo acc l = acc ++ t := by
  induction l generalizing acc with
  | nil => exact ⟨[], by simp [dedupGo]⟩
  | cons x tl ih =>
    show ∃ t, dedupGo (pushIfNew acc x) tl = acc ++ t
    obtain ⟨t, ht⟩ := ih (pushIfNew acc x)
    rw [ht]
    by_cases h : acc.contains x
    · exact ⟨t, by rw [pushIfNew, if_pos h]⟩
    · exact ⟨[x] ++ t, by rw [pushIfNew, if_neg h, List.append_assoc]⟩

theorem mem_dedupGo (acc l : List Nat) (x : Nat) :
    x ∈ dedupGo acc l ↔ x ∈ acc ∨ x ∈ l := by
  induction l generalizing acc with
  | nil => simp [dedupGo]
  | cons y tl ih =>
    show x ∈ dedupGo (pushIfNew acc y) tl ↔ _
    rw [ih]
    by_cases h : acc.contains y
    · rw [pushIfNew, if_pos h]
      have hy : y ∈ acc := by simpa using h
      simp only [List.mem_cons]
      constructor
      · rintro (hx | hx)
        · exact Or.inl hx
        · exact Or.inr (Or.inr hx)
      · rintro (hx | hx | hx)
        · exact Or.inl hx
        · exact Or.inl (hx ▸ hy)
        · exact Or.inr hx
    · rw [pushIfNew, if_neg h]
      simp only [List.mem_append, List.mem_singleton, List.mem_cons]
      tauto

theorem nodup_dedupGo (acc l : List Nat) (h : acc.Nodup) :
    (dedupGo acc l).Nodup := by
  induction l generalizing acc with
  | nil => exact h
  | cons y tl ih =>
    show (dedupGo (pushIfNew acc y) tl).Nodup
    refine ih _ ?_
    by_cases hy : acc.contains y
    · rwa [pushIfNew, if_pos hy]
    · rw [pushIfNew, if_neg hy]
      have : y ∉ acc := by simpa using hy
      simp [List.nodup_append, h, this]

theorem dedupGo_eq_self_of_subset (acc l : List Nat) (h : ∀ x ∈ l, x ∈ acc) :
    dedupGo acc l = acc := by
  induction l with
  | nil => rfl
  | cons y tl ih =>
    have hy : acc.contains y := by
      simpa using h y (List.mem_cons_self _ _)
    show dedupGo (pushIfNew acc y) tl = acc
    rw [pushIfNew, if_pos hy]
    exact ih (fun x hx => h x (List.mem_cons_of_mem _ hx))

theorem dedupGo_eq_append_of_nodup (acc t : List Nat) (h : (acc ++ t).Nodup) :
    dedupGo acc t = acc ++ t := by
  induction t generalizing acc with
  | nil => simp [dedupGo]
  | cons y tl ih =>
    have hy : y ∉ acc := by
      intro hmem
      rcases List.nodup_append.mp h with ⟨_, _, hdisj⟩
      exact hdisj hmem (List.mem_cons_self _ _)
    show dedupGo (pushIfNew acc y) tl = acc ++ y :: tl
    rw [pushIfNew, if_neg (by simpa using hy)]
    have : ((acc ++ [y]) ++ tl).Nodup := by
      simpa [List.append_assoc] using h
    rw [ih _ this, List.append_assoc]
    rfl

/-- De-duplication keeping the first occurrence, written the way the
specification describes it: keep the head, drop its later copies, recurse.
Used to characterise the loop of `mergeInterceptors`. -/
def dedupSpec : List Nat → List Nat
  | [] => []
  | x :: xs => x :: dedupSpec (xs.filter (fun y => !(y == x)))
termination_by l => l.length
decreasing_by
  exact Nat.lt_succ_of_le (List.length_filter_le _ _)

theorem dedupGo_eq_dedupSpec_filter (l acc : List Nat) :
    dedupGo acc l = acc ++ dedupSpec (l.filter (fun y => !acc.contains y)) := by
  induction l generalizing acc with
  | nil => simp [dedupGo, dedupSpec]
  | cons x tl ih =>
    by_cases h : acc.contains x
    · have hx : x ∈ acc := by simpa using h
      show dedupGo (pushIfNew acc x) tl = _
      rw [pushIfNew, if_pos h, ih acc]
      rw [List.filter_cons_of_neg (by simpa using h)]
    · show dedupGo (pushIfNew acc x) tl = _
      rw [pushIfNew, if_neg h, ih (acc ++ [x])]
      rw [List.filter_cons_of_pos (by simpa using h)]
      rw [dedupSpec]
      rw [List.filter_filter]
      have hbeq : ∀ a b : Nat, (a == b) = decide (a = b) := by
        intro a b
        cases hab : decide (a = b)
        · simp at hab
          simpa using hab
        · simp at hab
          simp [hab]
      have hpred : ∀ y, (!List.contains (acc ++ [x]) y)
          = ((!y == x) && !acc.contains y) := by
        intro y
        have hsplit : List.contains (acc ++ [x]) y
            = (acc.contains y || y == x) := by
          simp [List.elem_eq_mem, hbeq]
        rw [hsplit, Bool.not_or, Bool.and_comm]
      rw [List.append_assoc]
      refine congrArg (fun t => acc ++ ([x] ++ t)) ?_
      refine congrArg dedupSpec ?_
      exact List.filter_congr (fun y _ => hpred y)

/-- The push-if-absent loop of `mergeInterceptors` computes exactly the
keep-first-occurrence de-duplication. -/
theorem dedupFirst_eq_dedupSpec (l : List Nat) : dedupFirst l = dedupSpec l := by
  rw [dedupFirst, dedupGo_eq_dedupSpec_filter]
  simp

/-- Absorption: re-merging the class baseline in front of a list that was
itself produced by merging that baseline changes nothing.  This is the
algebraic heart of the fork construction, where the constructor merges the
class interceptors a second time. -/
theorem dedupGo_absorb_left (xs ys zs : List Nat) :
    dedupGo [] (xs ++ dedupGo [] (dedupGo [] (xs ++ ys) ++ zs)) =
      dedupGo [] (dedupGo [] (xs ++ ys) ++ zs) := by
  have hPA : dedupGo [] (xs ++ ys) = dedupGo (dedupGo [] xs) ys :=
    dedupGo_append _ _ _
  obtain ⟨t1, ht1⟩ := dedupGo_prefix (dedupGo [] xs) ys
  have hPt : dedupGo [] (xs ++ ys) = dedupGo [] xs ++ t1 := by rw [hPA, ht1]
  have hPnd : (dedupGo [] (xs ++ ys)).Nodup := nodup_dedupGo _ _ List.nodup_nil
  have hid : dedupGo [] (dedupGo [] (xs ++ ys)) = dedupGo [] (xs ++ ys) := by
    have := dedupGo_eq_append_of_nodup [] _ (by simpa using hPnd)
    simpa using this
  have hinner : dedupGo [] (dedupGo [] (xs ++ ys) ++ zs)
      = dedupGo (dedupGo [] (xs ++ ys)) zs := by
    rw [dedupGo_append, hid]
  obtain ⟨t2, ht2⟩ := dedupGo_prefix (dedupGo [] (xs ++ ys)) zs
  have hinnernd : (dedupGo [] (dedupGo [] (xs ++ ys) ++ zs)).Nodup :=
    nodup_dedupGo _ _ List.nodup_nil
  have hinner2 : dedupGo [] (dedupGo [] (xs ++ ys) ++ zs)
      = dedupGo [] xs ++ (t1 ++ t2) := by
    rw [hinner, ht2, hPt, List.append_assoc]
  rw [dedupGo_append, hinner2, dedupGo_append,
    dedupGo_eq_self_of_subset (dedupGo [] xs) (dedupGo [] xs) (fun x hx => hx)]
  exact dedupGo_eq_append_of_nodup _ _ (hinner2 ▸ hinnernd)

/-- Case-insensitive lookup through a merge whose arguments may be absent:
the second argument wins when it provides the name. -/
theorem hget_mergeHeaders_opt (a b : Option (List (String × String))) (k : String)
    (hnda : (keysOf (lowerEntries (entriesOrNil a))).Nodup)
    (hndb : (keysOf (lowerEntries (entriesOrNil b))).Nodup) :
    hget (mergeHeaders a b) k =
      (alookup (lowerStr k) (lowerEntries (entriesOrNil b))).or
        (alookup (lowerStr k) (lowerEntries (entriesOrNil a))) := by
  rw [mergeHeaders]
  rw [hget_setToHeaders _ _ _ hndb, hget_setToHeaders _ _ _ hnda]
  simp [hget, alookup, Option.or_none]

/- ## The client: construction and forking

An `HttpClient` instance owns a `defaults` configuration and an
`interceptors` bundle, both computed in the constructor (part_001 lines
695-708) by merging the class-level baseline with the supplied values.
`fork` (lines 753-762) merges the instance state with the overrides and
passes the result to `create`, which runs the constructor again. -/

/-- Observable state of an `HttpClient` instance. -/
structure ClientState where
  defaults : ConfigInput
  interceptors : Interceptors
deriving DecidableEq, Repr

/-- Transcription of the `HttpClient` constructor (part_001 lines
695-708), parameterised by the class-level `defaults` and `interceptors`
baselines that `this.super` resolves to. -/
def mkClient (classDefaults : ConfigInput) (classIntc : Interceptors)
    (config : ConfigInput) (intc : InterceptorsInput) : ClientState :=
  { defaults := mergeConfig classDefaults config
    interceptors := mergeInterceptors (toInput classIntc) intc }

/-- Transcription of `HttpClient.prototype.fork` (part_001 lines 753-762):
the instance state is merged with the overrides and the merged values are
handed to `create`, that is, to the constructor. -/
def forkClient (classDefaults : ConfigInput) (classIntc : Interceptors)
    (P : ClientState) (config : ConfigInput) (intc : InterceptorsInput) :
    ClientState :=
  mkClient classDefaults classIntc
    (mergeConfig P.defaults config)
    (toInput (mergeInterceptors (toInput P.interceptors) intc))

/- ## An explicit store for object identity

Claims about aliasing and post-merge mutation need object identity, which
values alone cannot express.  A store is a list of cells; a cell address is
its index, and allocation appends a cell at the end.  `Headers` objects and
interceptor arrays live in such stores where those claims are settled. -/

/-- Reading the cell at address `p` (an out-of-range read yields the empty
collection, which never happens for valid addresses). -/
def readCell {α : Type} [Inhabited α] (σ : List α) (p : Nat) : α :=
  σ.getD p default

/-- Overwriting the cell at address `p`. -/
def writeCell {α : Type} (σ : List α) (p : Nat) (x : α) : List α :=
  σ.set p x

/-- Allocating a fresh cell holding `x`; its address is the previous store
length. -/
def allocCell {α : Type} (σ : List α) (x : α) : Nat × List α :=
  (σ.length, σ ++ [x])

theorem length_writeCell {α : Type} (σ : List α) (p : Nat) (x : α) :
    (writeCell σ p x).length = σ.length :=
  List.length_set σ p x

theorem readCell_writeCell_ne {α : Type} [Inhabited α] (σ : List α)
    (p q : Nat) (x : α) (h : p ≠ q) :
    readCell (writeCell σ p x) q = readCell σ q := by
  rw [readCell, writeCell, readCell, List.getD_eq_getElem?_getD,
    List.getD_eq_getElem?_getD, List.getElem?_set_ne h]

theorem readCell_append_lt {α : Type} [Inhabited α] (σ τ : List α) (q : Nat)
    (h : q < σ.length) : readCell (σ ++ τ) q = readCell σ q := by
  rw [readCell, readCell, List.getD_eq_getElem?_getD, List.getD_eq_getElem?_getD,
    List.getElem?_append, if_pos h]

/-- A `Headers` store: every cell is the entry list of one `Headers`
object. -/
abbrev HStore : Type := List (List (String × String))

/-- Model of `headers.set(name, value)` performed through a reference to
the `Headers` object stored at address `p`. -/
def hsetCell (σ : HStore) (p : Nat) (k v : String) : HStore :=
  writeCell σ p (setKey (lowerStr k) v (readCell σ p))

/-- Model of the `setToHeaders` loop writing through a reference. -/
def setEntriesCell (σ : HStore) (p : Nat) (es : List (String × String)) : HStore :=
  es.foldl (fun τ e => hsetCell τ p e.1 e.2) σ

/-- Headers argument of `mergeHeaders` in the store model: `undefined`, a
reference to a stored `Headers` object, or a plain record of entries. -/
inductive HeadersArg where
  | undef
  | ref (p : Nat)
  | record (es : List (String × String))
deriving DecidableEq, Repr

/-- Entry list an argument contributes: a reference contributes the current
content of its cell, a record its own entries, `undefined` nothing. -/
def entriesOfArg (σ : HStore) : HeadersArg → List (String × String)
  | .undef => []
  | .ref p => readCell σ p
  | .record es => es

/-- Transcription of `HttpClient.mergeHeaders` (part_001 lines 655-671) in
the store model: `new Headers()` allocates a fresh cell, then the entries
of `a` and of `b` are set onto it in order. -/
def mergeHeadersS (σ : HStore) (a b : HeadersArg) : Nat × HStore :=
  let alloc := allocCell σ []
  let σ1 := setEntriesCell alloc.2 alloc.1 (entriesOfArg alloc.2 a)
  let σ2 := setEntriesCell σ1 alloc.1 (entriesOfArg σ1 b)
  (alloc.1, σ2)

theorem length_hsetCell (σ : HStore) (p : Nat) (k v : String) :
    (hsetCell σ p k v).length = σ.length :=
  length_writeCell _ _ _

theorem length_setEntriesCell (σ : HStore) (p : Nat) (es : List (String × String)) :
    (setEntriesCell σ p es).length = σ.length := by
  induction es generalizing σ with
  | nil => rfl
  | cons e tl ih =>
    show (setEntriesCell (hsetCell σ p e.1 e.2) p tl).length = _
    rw [ih, length_hsetCell]

theorem readCell_hsetCell_ne (σ : HStore) (p q : Nat) (k v : String) (h : p ≠ q) :
    readCell (hsetCell σ p k v) q = readCell σ q :=
  readCell_writeCell_ne _ _ _ _ h

theorem readCell_setEntriesCell_ne (σ : HStore) (p q : Nat)
    (es : List (String × String)) (h : p ≠ q) :
    readCell (setEntriesCell σ p es) q = readCell σ q := by
  induction es generalizing σ with
  | nil => rfl
  | cons e tl ih =>
    show readCell (setEntriesCell (hsetCell σ p e.1 e.2) p tl) q = _
    rw [ih, readCell_hsetCell_ne _ _ _ _ _ h]

theorem length_mergeHeadersS (σ : HStore) (a b : HeadersArg) :
    (mergeHeadersS σ a b).2.length = σ.length + 1 := by
  show (setEntriesCell (setEntriesCell (σ ++ [[]]) σ.length _) σ.length _).length = _
  rw [length_setEntriesCell, length_setEntriesCell, List.length_append]
  rfl

theorem mergeHeadersS_addr (σ : HStore) (a b : HeadersArg) :
    (mergeHeadersS σ a b).1 = σ.length := rfl

/-- Cells other than the freshly allocated one are untouched by a merge. -/
theorem readCell_mergeHeadersS_ne (σ : HStore) (a b : HeadersArg) (q : Nat)
    (h : q < σ.length) :
    readCell (mergeHeadersS σ a b).2 q = readCell σ q := by
  show readCell (setEntriesCell (setEntriesCell (σ ++ [[]]) σ.length _) σ.length _) q = _
  rw [readCell_setEntriesCell_ne _ _ _ _ (by omega),
    readCell_setEntriesCell_ne _ _ _ _ (by omega),
    readCell_append_lt _ _ _ h]

/-- An interceptor-array store: every cell is one interceptor array. -/
abbrev AStore : Type := List (List Nat)

/-- One push-if-absent step performed through a reference to the array at
address `p`. -/
def pushCellIfNew (σ : AStore) (p : Nat) (x : Nat) : AStore :=
  if (readCell σ p).contains x then σ else writeCell σ p (readCell σ p ++ [x])

/-- The push-if-absent loop of `mergeInterceptors` through a reference. -/
def pushAllCell (σ : AStore) (p : Nat) (xs : List Nat) : AStore :=
  xs.foldl (fun τ x => pushCellIfNew τ p x) σ

/-- One list (request or response) of `HttpClient.mergeInterceptors` in
the store model: a fresh array is allocated, the two source arrays are
spread into a combined list of values, and each value is pushed into the
fresh array unless already present. -/
def mergeIntcArrS (σ : AStore) (ra rb : Nat) : Nat × AStore :=
  let alloc := allocCell σ []
  let all := readCell alloc.2 ra ++ readCell alloc.2 rb
  (alloc.1, pushAllCell alloc.2 alloc.1 all)

theorem length_pushCellIfNew (σ : AStore) (p x : Nat) :
    (pushCellIfNew σ p x).length = σ.length := by
  rw [pushCellIfNew]
  by_cases h : (readCell σ p).contains x
  · rw [if_pos h]
  · rw [if_neg h, length_writeCell]

theorem length_pushAllCell (σ : AStore) (p : Nat) (xs : List Nat) :
    (pushAllCell σ p xs).length = σ.length := by
  induction xs generalizing σ with
  | nil => rfl
  | cons x tl ih =>
    show (pushAllCell (pushCellIfNew σ p x) p tl).length = _
    rw [ih, length_pushCellIfNew]

theorem readCell_pushCellIfNew_ne (σ : AStore) (p q x : Nat) (h : p ≠ q) :
    readCell (pushCellIfNew σ p x) q = readCell σ q := by
  rw [pushCellIfNew]
  by_cases hc : (readCell σ p).contains x
  · rw [if_pos hc]
  · rw [if_neg hc, readCell_writeCell_ne _ _ _ _ h]

theorem readCell_pushAllCell_ne (σ : AStore) (p q : Nat) (xs : List Nat)
    (h : p ≠ q) : readCell (pushAllCell σ p xs) q = readCell σ q := by
  induction xs generalizing σ with
  | nil => rfl
  | cons x tl ih =>
    show readCell (pushAllCell (pushCellIfNew σ p x) p tl) q = _
    rw [ih, readCell_pushCellIfNew_ne _ _ _ _ h]

theorem length_mergeIntcArrS (σ : AStore) (ra rb : Nat) :
    (mergeIntcArrS σ ra rb).2.length = σ.length + 1 := by
  show (pushAllCell (σ ++ [[]]) σ.length _).length = _
  rw [length_pushAllCell, List.length_append]
  rfl

theorem mergeIntcArrS_addr (σ : AStore) (ra rb : Nat) :
    (mergeIntcArrS σ ra rb).1 = σ.length := rfl

theorem readCell_mergeIntcArrS_ne (σ : AStore) (ra rb q : Nat)
    (h : q < σ.length) :
    readCell (mergeIntcArrS σ ra rb).2 q = readCell σ q := by
  show readCell (pushAllCell (σ ++ [[]]) σ.length _) q = _
  rw [readCell_pushAllCell_ne _ _ _ _ (by omega), readCell_append_lt _ _ _ h]

/-- Configuration object in the store model: scalar properties plus the
headers argument (absent, reference, or record). -/
structure ConfigArg where
  scalars : List (String × Prim)
  headersA : HeadersArg
deriving DecidableEq, Repr

/-- Transcription of `HttpClient.mergeConfig` in the store model: the two
headers arguments go through `mergeHeaders` (allocating a fresh `Headers`
object) and the result object references the fresh collection. -/
def mergeConfigS (σ : HStore) (a b : ConfigArg) : ConfigArg × HStore :=
  let m := mergeHeadersS σ a.headersA b.headersA
  ({ scalars := objAssign a.scalars b.scalars, headersA := .ref m.1 }, m.2)

/-- Headers part of `fork` in the store model: the instance headers (at
address `pAddr`) are merged with the override, and the constructor then
merges the class headers with that result; both merges allocate fresh
collections. -/
def forkHeadersS (σ : HStore) (classH : HeadersArg) (pAddr : Nat)
    (cfgH : HeadersArg) : Nat × HStore :=
  let m := mergeHeadersS σ (.ref pAddr) cfgH
  mergeHeadersS m.2 classH (.ref m.1)

/-- Request-interceptor part of `fork` in the store model: `fork` merges
the instance array (address `pArr`) with the override array (address
`inArr`), and the constructor merges the class array (address `classArr`)
with that result; each merge allocates a fresh array. -/
def forkIntcArrS (σ : AStore) (classArr pArr inArr : Nat) : Nat × AStore :=
  let m := mergeIntcArrS σ pArr inArr
  mergeIntcArrS m.2 classArr m.1

/- ## Schema fields

Only the fields of `HttpClient.ConfigSchema` that the claims exercise are
modelled: `origin` and `path` (with the `cleanUrl` transform), and the
`json` field with its stringify-or-validate alternative.  The validation
library itself is an injected capability; its URL check and the built-in
`JSON.parse` validity check appear as predicate parameters. -/

/-- A JSON value, as accepted by `z.object({}).passthrough()` and produced
by `JSON.parse`. -/
inductive Json where
  | num (n : Int)
  | str (s : String)
  | jsBool (b : Bool)
  | null
  | arr (elems : List Json)
  | obj (fields : List (String × Json))

mutual

/-- Model of the built-in `JSON.stringify` on JSON values (compact output,
double-quoted member names, no added whitespace). -/
def stringify : Json → String
  | .num n => toString n
  | .str s => "\"" ++ s ++ "\""
  | .jsBool true => "true"
  | .jsBool false => "false"
  | .null => "null"
  | .arr es => "[" ++ stringifyElems es ++ "]"
  | .obj fs => "\x7b" ++ stringifyFields fs ++ "\x7d"

/-- Comma-separated serialisation of array elements. -/
def stringifyElems : List Json → String
  | [] => ""
  | [e] => stringify e
  | e :: rest => stringify e ++ "," ++ stringifyElems rest

/-- Comma-separated serialisation of object members. -/
def stringifyFields : List (String × Json) → String
  | [] => ""
  | [(k, v)] => "\"" ++ k ++ "\":" ++ stringify v
  | (k, v) :: rest => "\"" ++ k ++ "\":" ++ stringify v ++ "," ++ stringifyFields rest

end

/-- Input to the `json` field of `ConfigSchema`: absent, a plain object,
or a string. -/
inductive JsonFieldInput where
  | undef
  | obj (j : Json)
  | str (s : String)

/-- Transcription of the `json` field of `ConfigSchema` (part_001 lines
455-469): an object (or an absent value) passes the first alternative and
is transformed by `JSON.stringify` (so an absent value stays absent, since
`JSON.stringify(undefined)` is `undefined`); otherwise a string is accepted
exactly when the injected `JSON.parse` accepts it. -/
def parseJsonField (validJson : String → Bool) :
    JsonFieldInput → Except Unit (Option String)
  | .undef => .ok none
  | .obj j => .ok (some (stringify j))
  | .str s => if validJson s then .ok (some s) else .error ()

/-- Model of `value.endsWith(suffix)` on strings seen as character
lists. -/
def jsEndsWith (v suffix : List Char) : Bool := decide (suffix <:+ v)

/-- Transcription of the `cleanUrl` transform of the `origin` field
(part_001 lines 415-421): one trailing slash, when present, is removed
(`substring(0, length - 1)` drops the last character). -/
def cleanUrl (v : List Char) : List Char :=
  if jsEndsWith v ['/'] then v.dropLast else v

/-- Transcription of the `origin` field of `ConfigSchema` (part_001 lines
412-422): an absent value is accepted as absent; a present string must
satisfy the URL check of the validation library (injected as `isUrl`) and
is then transformed by `cleanUrl`. -/
def parseOrigin (isUrl : List Char → Bool) :
    Option (List Char) → Except Unit (Option (List Char))
  | none => .ok none
  | some v => if isUrl v then .ok (some (cleanUrl v)) else .error ()

/-- Transcription of the `path` field of `ConfigSchema` (part_001 line
426): the value must start with a slash and defaults to the root path. -/
def parsePath : Option (List Char) → Except Unit (List Char)
  | none => .ok ['/']
  | some p => if ['/'].isPrefixOf p then .ok p else .error ()

/-- Joint parse of the `origin` and `path` fields of `ConfigSchema`; the
fields of a schema object are validated independently, so a configuration
is accepted only when both fields are. -/
def parseOriginPath (isUrl : List Char → Bool)
    (o p : Option (List Char)) : Except Unit (Option (List Char) × List Char) :=
  match parseOrigin isUrl o, parsePath p with
  | .ok ov, .ok pv => .ok (ov, pv)
  | .error e, _ => .error e
  | _, .error e => .error e

/- ## Interceptor validation -/

/-- A JavaScript value as seen by `isValidateInterceptor`: a function
object with its `name` property and its arity (`length`), or anything
else. -/
inductive JsValue where
  | func (name : String) (arity : Nat)
  | other
deriving DecidableEq, Repr

/-- The `name` property of a value: every genuine JavaScript function has
a string `name` (an anonymous function has the empty string), never
`undefined`; non-functions are only reached in front of the `typeof`
guard and their `name` is irrelevant. -/
def namePropOf : JsValue → Option String
  | .func n _ => some n
  | .other => none

/-- The `length` property (declared arity) of a function. -/
def arityOf : JsValue → Nat
  | .func _ a => a
  | .other => 0

/-- The `typeof value === "function"` guard. -/
def typeofFunction : JsValue → Bool
  | .func _ _ => true
  | .other => false

/-- Transcription of `isValidateInterceptor` (part_001 lines 318-320):
`typeof value === "function" && value.name !== undefined &&
value.length > 0`. -/
def isValidateInterceptor (v : JsValue) : Bool :=
  typeofFunction v && decide (namePropOf v ≠ none) && decide (0 < arityOf v)

/- ## The request value object -/

/-- A request body (`BodyInit` or `null`): a string, or one of the
abstract binary shapes the schema allows. -/
inductive BodyVal where
  | str (s : String)
  | blob
  | buffer
  | form
  | params
deriving DecidableEq, Repr

/-- The `init` record received by the `HttpRequest` constructor after
schema parsing: the already-stringified `json` value when one was given,
the plain `body`, and the header entries. -/
structure RequestInitS where
  json : Option String
  body : Option BodyVal
  headers : List (String × String)
deriving DecidableEq, Repr

/-- Observable state of a built `HttpRequest`. -/
structure HttpRequestS where
  headers : List (String × String)
  body : Option BodyVal
deriving DecidableEq, Repr

/-- Model of `String.prototype.includes`. -/
def jsIncludes (s sub : String) : Bool := decide (sub.data <:+: s.data)

/-- Transcription of the `HttpRequest` constructor (part_001 lines
255-265): `json` and `body` are destructured from `init` and the native
request receives `json || body` as its body (the JavaScript fallback,
where an empty string is falsy); afterwards, when `json` is truthy and
the content type is missing or not JSON-like, the content type is set to
the JSON one. -/
def mkHttpRequest (init : RequestInitS) : HttpRequestS :=
  let bodyArg : Option BodyVal :=
    match init.json with
    | some s => if s = "" then init.body else some (.str s)
    | none => init.body
  let hs := setToHeaders [] init.headers
  let ct := (hget hs "content-type").getD ""
  let hs2 :=
    match init.json with
    | some s =>
      if s = "" then hs
      else if ct = "" ∨ jsIncludes ct "json" = false then
        hset hs "content-type" "application/json;charset=UTF-8"
      else hs
    | none => hs
  { headers := hs2, body := bodyArg }

/- ## The response value object and the send pipeline -/

/-- The raw network response produced by the injected transport, as the
`HttpResponse` wrapper observes it. -/
structure RawResp where
  url : String
  status : Nat
  statusText : String
  okFlag : Bool
  contentTypeHdr : Option String
  rawBody : String
deriving DecidableEq, Repr

/-- Observable state of an `HttpResponse`: the wrapped raw response, the
attached response interceptors (by function identity), the `content` and
`data` fields, the native `bodyUsed` flag, and an instrumentation counter
of underlying body reads. -/
structure HttpRespS where
  raw : RawResp
  interceptors : List Nat
  content : String
  data : Option String
  bodyUsed : Bool
  reads : Nat
deriving DecidableEq, Repr

/-- The `contentType` getter of `HttpResponse` (part_001 lines 210-212):
the content-type header or the empty string. -/
def contentTypeOf (r : HttpRespS) : String :=
  match r.raw.contentTypeHdr with
  | some s => s
  | none => ""

/-- Model of the overridden `text()` (part_001 lines 226-231): the
underlying body is read (consuming it and counting one read) and stored
into `content`. -/
def textStep (r : HttpRespS) : HttpRespS :=
  { r with content := r.raw.rawBody, bodyUsed := true, reads := r.reads + 1 }

/-- Model of the overridden `json()` (part_001 lines 217-221):
`JSON.parse(await this.text())` stored into `data`; the parser is the
injected `JSON.parse` primitive. -/
def jsonStep (parse : String → String) (r : HttpRespS) : HttpRespS :=
  let r1 := textStep r
  { r1 with data := some (parse r1.content) }

/-- Transcription of `HttpResponse.resolveBody` (part_001 lines 191-203):
when the body is not yet used, read it as JSON when the content type
mentions json and as text otherwise; when the body was already used, do
nothing. -/
def resolveBody (parse : String → String) (r : HttpRespS) : HttpRespS :=
  if r.bodyUsed = false then
    if jsIncludes (contentTypeOf r) "json" then jsonStep parse r
    else textStep r
  else r

/-- Wrapping of a fetched raw response, with the response interceptors
attached through `addInterceptors` (which pushes each one unless already
present, part_001 lines 157-165). -/
def wrapResponse (raw : RawResp) (intcs : List Nat) : HttpRespS :=
  { raw := raw, interceptors := dedupGo [] intcs, content := "",
    data := none, bodyUsed := false, reads := 0 }

/-- Model of the thrown `HttpError` (part_001 lines 85-100): the message
interpolates the url and status text, and `cause` holds the response. -/
structure HttpErrorS where
  message : String
  cause : HttpRespS
deriving DecidableEq, Repr

/-- The `HttpError` constructor. -/
def mkHttpError (r : HttpRespS) : HttpErrorS :=
  { message := "Request to " ++ r.raw.url ++ " failed with status "
      ++ r.raw.statusText
    cause := r }

/-- Running the response interceptors in order (`intercept`, part_001
lines 173-181), returning the final response and the identities of the
interceptors that actually ran; each interceptor may rewrite the response
through the injected interpretation `apply`. -/
def runRespIntcs (apply : Nat → HttpRespS → HttpRespS) (l : List Nat)
    (r : HttpRespS) : HttpRespS × List Nat :=
  l.foldl (fun acc i => (apply i acc.1, acc.2 ++ [i])) (r, [])

/-- Transcription of `HttpResponse.intercept` (part_001 lines 173-181):
the body is resolved first, then every attached interceptor runs in
order. -/
def interceptResp (parse : String → String) (apply : Nat → HttpRespS → HttpRespS)
    (r : HttpRespS) : HttpRespS × List Nat :=
  runRespIntcs apply r.interceptors (resolveBody parse r)

/-- Transcription of the response half of `HttpClient.send` (part_001
lines 539-552): the fetched raw response is wrapped with the merged
response interceptors attached; when its `ok` classification is false a
request-failure error carrying the response is thrown and nothing else
runs; otherwise the response is intercepted (resolving the body first)
and returned (the trailing delay leaves the response untouched).  The
second component lists the response interceptors that ran. -/
def sendFromFetch (parse : String → String) (apply : Nat → HttpRespS → HttpRespS)
    (raw : RawResp) (resIntcs : List Nat) :
    Except HttpErrorS HttpRespS × List Nat :=
  let response := wrapResponse raw resIntcs
  if response.raw.okFlag = false then
    (.error (mkHttpError response), [])
  else
    let out := interceptResp parse apply response
    (.ok out.1, out.2)

/- ## Claims -/

theorem or_absorb_right {α : Type} (a b c : Option α) :
    (a.or (b.or c)).or c = a.or (b.or c) := by
  cases a <;> cases b <;> cases c <;> rfl

/-- C1: for all configuration objects A (class defaults), B (instance
defaults) and C (per-call override), `mergeConfig(mergeConfig(A,B),C)`
yields, on every scalar (non-headers) field, the value of C when C sets
the field, otherwise the value of B when B sets it, otherwise the value of
A; in particular a field set only in A is preserved in the result.  The
`Nodup` hypotheses record that JavaScript objects never carry duplicate
keys. -/
theorem claim_C1_merge_precedence (A B C : ConfigInput)
    (hB : (keysOf B.scalars).Nodup) (hC : (keysOf C.scalars).Nodup) :
    ∀ k, getScalar (mergeConfig (mergeConfig A B) C) k =
      (getScalar C k).or ((getScalar B k).or (getScalar A k)) := by
  intro k
  show alookup k (objAssign (objAssign A.scalars B.scalars) C.scalars) = _
  rw [objAssign, alookup_foldAssign _ _ _ hC, objAssign,
    alookup_foldAssign _ _ _ hB]
  rfl

/-- Witness for C1 at concrete configurations: the override wins on
`method`, the instance defaults win on `delay`, and the class-only field
`cache` is preserved. -/
theorem claim_C1_witness :
    getScalar (mergeConfig (mergeConfig
        ⟨[("cache", .str "no-cache"), ("delay", .num 0)], none⟩
        ⟨[("delay", .num 5)], none⟩)
        ⟨[("method", .str "POST")], none⟩) "delay" =
      (getScalar (⟨[("method", .str "POST")], none⟩ : ConfigInput) "delay").or
        ((getScalar (⟨[("delay", .num 5)], none⟩ : ConfigInput) "delay").or
          (getScalar (⟨[("cache", .str "no-cache"), ("delay", .num 0)], none⟩ :
            ConfigInput) "delay")) :=
  claim_C1_merge_precedence _ _ _ (by decide) (by decide) "delay"

/-- C2: each list of `mergeInterceptors(a,b)` is the concatenation of the
list of `a` followed by the list of `b`, de-duplicated by function
identity keeping the first occurrence (`dedupSpec`), so first-seen order
is preserved; in particular merging `[f, g]` with `[g, h]` yields
`[f, g, h]` (shown with the identities 0, 1, 2). -/
theorem claim_C2_dedup_first_order (a b : InterceptorsInput) :
    (mergeInterceptors a b).request
        = dedupSpec (a.request.getD [] ++ b.request.getD []) ∧
    (mergeInterceptors a b).response
        = dedupSpec (a.response.getD [] ++ b.response.getD []) ∧
    mergeInterceptors ⟨some [0, 1], some [10]⟩ ⟨some [1, 2], some [10]⟩
        = ⟨[0, 1, 2], [10]⟩ := by
  refine ⟨?_, ?_, by decide⟩
  · exact dedupFirst_eq_dedupSpec _
  · exact dedupFirst_eq_dedupSpec _

/-- C3: when the transport returns a response whose `ok` classification is
false, `send` throws a request-failure `HttpError` whose `cause` is the
wrapped response, and no response interceptor runs on that path (the list
of executed response interceptors is empty). -/
theorem claim_C3_failure_path (parse : String → String)
    (apply : Nat → HttpRespS → HttpRespS) (raw : RawResp) (l : List Nat)
    (h : raw.okFlag = false) :
    sendFromFetch parse apply raw l
      = (.error (mkHttpError (wrapResponse raw l)), []) ∧
    (mkHttpError (wrapResponse raw l)).cause = wrapResponse raw l ∧
    (mkHttpError (wrapResponse raw l)).cause.raw = raw := by
  refine ⟨?_, rfl, rfl⟩
  show (if raw.okFlag = false then _ else _) = _
  rw [if_pos h]

/-- Witness for C3: a 404 response with one attached response interceptor
produces the error and an empty list of executed interceptors. -/
theorem claim_C3_witness :
    sendFromFetch id (fun _ r => r)
        ⟨"https://x.test/items", 404, "404 Not Found", false, none, ""⟩ [7]
      = (.error (mkHttpError (wrapResponse
          ⟨"https://x.test/items", 404, "404 Not Found", false, none, ""⟩ [7])), []) ∧
    (mkHttpError (wrapResponse
        ⟨"https://x.test/items", 404, "404 Not Found", false, none, ""⟩ [7])).cause
      = wrapResponse
          ⟨"https://x.test/items", 404, "404 Not Found", false, none, ""⟩ [7] ∧
    (mkHttpError (wrapResponse
        ⟨"https://x.test/items", 404, "404 Not Found", false, none, ""⟩ [7])).cause.raw
      = ⟨"https://x.test/items", 404, "404 Not Found", false, none, ""⟩ :=
  claim_C3_failure_path id (fun _ r => r) _ [7] rfl

/-- C4: the headers of `mergeConfig(a,b)` contain every header of `a` and
every header of `b`; on a case-insensitive name collision the value of `b`
wins, and headers of `a` not named by `b` are preserved — all captured by
the lookup equation, read case-insensitively through `lowerStr`.  The
concrete conjuncts show the additive merge, the collision, and a collision
differing only in case. -/
theorem claim_C4_headers_additive (A B : ConfigInput) (k : String)
    (hnda : (keysOf (lowerEntries (entriesOrNil A.headers))).Nodup)
    (hndb : (keysOf (lowerEntries (entriesOrNil B.headers))).Nodup) :
    getHeader (mergeConfig A B) k
      = (alookup (lowerStr k) (lowerEntries (entriesOrNil B.headers))).or
          (alookup (lowerStr k) (lowerEntries (entriesOrNil A.headers))) ∧
    getHeader (mergeConfig ⟨[], some [("a", "1")]⟩ ⟨[], some [("b", "2")]⟩) "a"
        = some "1" ∧
    getHeader (mergeConfig ⟨[], some [("a", "1")]⟩ ⟨[], some [("b", "2")]⟩) "b"
        = some "2" ∧
    getHeader (mergeConfig ⟨[], some [("a", "1")]⟩ ⟨[], some [("A", "2")]⟩) "a"
        = some "2" := by
  refine ⟨?_, by decide, by decide, by decide⟩
  show hget (mergeHeaders A.headers B.headers) k = _
  exact hget_mergeHeaders_opt _ _ _ hnda hndb

/-- Witness for C4 at a case-insensitive collision: merging headers
`A: 1` (left) and `a: 2` (right) answers `2` for the name `A`. -/
theorem claim_C4_witness :
    getHeader (mergeConfig ⟨[], some [("A", "1")]⟩ ⟨[], some [("a", "2")]⟩) "A"
      = (alookup (lowerStr "A")
          (lowerEntries (entriesOrNil (some [("a", "2")])))).or
        (alookup (lowerStr "A")
          (lowerEntries (entriesOrNil (some [("A", "1")])))) :=
  (claim_C4_headers_additive ⟨[], some [("A", "1")]⟩ ⟨[], some [("a", "2")]⟩ "A"
    (by decide) (by decide)).1

/-- C5: when the merged configuration supplies `json`, the built
`HttpRequest` has `body` equal to the serialized JSON string (so `json`
wins over any simultaneously supplied `body`), and the content-type header
is forcibly set to `application/json;charset=UTF-8` exactly when no
JSON-compatible content-type was already set (when one was, the headers
are left untouched).  The last two conjuncts evaluate the schema transform
on the object with the single member x = 1, whose serialization is the
expected string. -/
theorem claim_C5_json_coercion (init : RequestInitS) (s : String)
    (hj : init.json = some s) (hs : s ≠ "") :
    (mkHttpRequest init).body = some (.str s) ∧
    (jsIncludes ((hget (setToHeaders [] init.headers) "content-type").getD "")
        "json" = false →
      hget (mkHttpRequest init).headers "content-type"
        = some "application/json;charset=UTF-8") ∧
    (jsIncludes ((hget (setToHeaders [] init.headers) "content-type").getD "")
        "json" = true →
      (mkHttpRequest init).headers = setToHeaders [] init.headers) ∧
    stringify (.obj [("x", .num 1)]) = "\x7b\"x\":1\x7d" ∧
    parseJsonField (fun _ => true) (.obj (.obj [("x", .num 1)]))
      = .ok (some "\x7b\"x\":1\x7d") := by
  have hreq : mkHttpRequest init =
      { headers :=
          if ((hget (setToHeaders [] init.headers) "content-type").getD "" = ""
              ∨ jsIncludes ((hget (setToHeaders [] init.headers)
                  "content-type").getD "") "json" = false) then
            hset (setToHeaders [] init.headers) "content-type"
              "application/json;charset=UTF-8"
          else setToHeaders [] init.headers
        body := some (.str s) } := by
    simp only [mkHttpRequest, hj, if_neg hs]
  refine ⟨by rw [hreq], ?hforce, ?hkeep, by decide, ?hparse⟩
  case hparse =>
    show Except.ok (some (stringify (.obj [("x", .num 1)]))) = _
    rw [show stringify (.obj [("x", .num 1)]) = "\x7b\"x\":1\x7d" by decide]
  case hforce =>
    intro hinc
    rw [hreq]
    show hget (if _ then _ else _) "content-type" = _
    rw [if_pos (Or.inr hinc)]
    exact alookup_setKey_self _ _ _
  case hkeep =>
    intro hinc
    rw [hreq]
    show (if _ then _ else _) = _
    rw [if_neg]
    rintro (hc | hc)
    · rw [hc] at hinc
      exact absurd hinc (by decide)
    · rw [hinc] at hc
      exact Bool.noConfusion hc

/-- Witness for C5: the serialized object is the body even though a plain
body was supplied too, and the JSON content-type is installed since no
content-type was present. -/
theorem claim_C5_witness :
    (mkHttpRequest ⟨some "\x7b\"x\":1\x7d", some (.str "zzz"), []⟩).body
        = some (.str "\x7b\"x\":1\x7d") ∧
    (jsIncludes ((hget (setToHeaders []
        ([] : List (String × String))) "content-type").getD "") "json" = false →
      hget (mkHttpRequest ⟨some "\x7b\"x\":1\x7d", some (.str "zzz"), []⟩).headers
          "content-type"
        = some "application/json;charset=UTF-8") ∧
    (jsIncludes ((hget (setToHeaders []
        ([] : List (String × String))) "content-type").getD "") "json" = true →
      (mkHttpRequest ⟨some "\x7b\"x\":1\x7d", some (.str "zzz"), []⟩).headers
        = setToHeaders [] ([] : List (String × String))) ∧
    stringify (.obj [("x", .num 1)]) = "\x7b\"x\":1\x7d" ∧
    parseJsonField (fun _ => true) (.obj (.obj [("x", .num 1)]))
      = .ok (some "\x7b\"x\":1\x7d") :=
  claim_C5_json_coercion ⟨some "\x7b\"x\":1\x7d", some (.str "zzz"), []⟩
    "\x7b\"x\":1\x7d" rfl (by decide)

theorem cleanUrl_endsWith (v : List Char) :
    jsEndsWith (cleanUrl v) ['/'] = jsEndsWith v ['/', '/'] := by
  rw [cleanUrl]
  by_cases hs : jsEndsWith v ['/'] = true
  · rw [if_pos hs]
    obtain ⟨t, ht⟩ := of_decide_eq_true hs
    rw [← ht, List.dropLast_concat, jsEndsWith, jsEndsWith, decide_eq_decide]
    constructor
    · rintro ⟨u, hu⟩
      refine ⟨u, ?_⟩
      have h2 : (u ++ ['/']) ++ ['/'] = t ++ ['/'] := by rw [hu]
      simpa [List.append_assoc] using h2
    · rintro ⟨u, hu⟩
      have h2 : (u ++ ['/']) ++ ['/'] = t ++ ['/'] := by
        simpa [List.append_assoc] using hu
      exact ⟨u, List.append_cancel_right h2⟩
  · rw [if_neg hs]
    have hnot : ¬ (['/'] <:+ v) := fun hc => hs (decide_eq_true hc)
    have h2 : ¬ (['/', '/'] <:+ v) := by
      intro hc
      exact hnot (List.IsSuffix.trans ⟨['/'], rfl⟩ hc)
    rw [jsEndsWith, jsEndsWith, decide_eq_false hnot, decide_eq_false h2]

theorem parsePath_ok (p : Option (List Char)) (pv : List Char)
    (h : parsePath p = .ok pv) : ['/'].isPrefixOf pv = true := by
  cases p with
  | none =>
    have h1 : (['/'] : List Char) = pv := by
      injection h
    rw [← h1]
    decide
  | some q =>
    by_cases hq : ['/'].isPrefixOf q = true
    · rw [parsePath, if_pos hq] at h
      have h1 : q = pv := by injection h
      rwa [← h1]
    · rw [parsePath, if_neg hq] at h
      exact Except.noConfusion h

theorem parseOrigin_ok (isUrl : List Char → Bool) (o : Option (List Char))
    (ov : Option (List Char)) (h : parseOrigin isUrl o = .ok ov) :
    ∀ w, ov = some w → ∃ v, o = some v ∧ w = cleanUrl v := by
  cases o with
  | none =>
    have h1 : (none : Option (List Char)) = ov := by injection h
    intro w hw
    rw [← h1] at hw
    exact Option.noConfusion hw
  | some v =>
    by_cases hu : isUrl v = true
    · rw [parseOrigin, if_pos hu] at h
      have h1 : some (cleanUrl v) = ov := by injection h
      intro w hw
      rw [← h1] at hw
      have h2 : cleanUrl v = w := by injection hw
      exact ⟨v, rfl, h2.symm⟩
    · rw [parseOrigin, if_neg hu] at h
      exact Except.noConfusion h

theorem parseOriginPath_ok (isUrl : List Char → Bool) (o p : Option (List Char))
    (ov : Option (List Char)) (pv : List Char)
    (h : parseOriginPath isUrl o p = .ok (ov, pv)) :
    parseOrigin isUrl o = .ok ov ∧ parsePath p = .ok pv := by
  rw [parseOriginPath] at h
  cases ho : parseOrigin isUrl o with
  | ok x =>
    cases hp : parsePath p with
    | ok y =>
      rw [ho, hp] at h
      simp only at h
      have h1 : (x, y) = (ov, pv) := by injection h
      have h2 : x = ov := congrArg Prod.fst h1
      have h3 : y = pv := congrArg Prod.snd h1
      rw [← h2, ← h3]
      exact ⟨rfl, rfl⟩
    | error e =>
      rw [ho, hp] at h
      simp only at h
      exact Except.noConfusion h
  | error e =>
    rw [ho] at h
    simp only at h
    exact Except.noConfusion h

/-- C6 counterexample: the claim states that an accepted origin never ends
with a slash, every trailing slash being stripped.  The string
"https://x.test//" passes the URL check of the validation library (the
check constructs `new URL(value)` inside a try block, and that constructor
accepts a double trailing slash), yet `cleanUrl` removes a single
character, so the accepted configuration keeps an origin ending with
'/'. -/
theorem claim_C6_counterexample :
    parseOriginPath (fun _ => true) (some ("https://x.test//".toList)) none
      = Except.ok (some ("https://x.test/".toList), ['/']) ∧
    jsEndsWith ("https://x.test/".toList) ['/'] = true := by
  constructor
  · rfl
  · decide

/-- C6 (amended): every configuration accepted by the schema has a path
beginning with '/' (defaulting to '/'); the origin, when present, has
exactly one trailing slash stripped, hence the parsed origin ends with '/'
exactly when the supplied origin ended with a double slash. -/
theorem claim_C6_amended (isUrl : List Char → Bool) (o p : Option (List Char))
    (ov : Option (List Char)) (pv : List Char)
    (h : parseOriginPath isUrl o p = .ok (ov, pv)) :
    ['/'].isPrefixOf pv = true ∧
    (∀ w, ov = some w → ∃ v, o = some v ∧ w = cleanUrl v ∧
      jsEndsWith w ['/'] = jsEndsWith v ['/', '/']) := by
  obtain ⟨ho, hp⟩ := parseOriginPath_ok _ _ _ _ _ h
  refine ⟨parsePath_ok _ _ hp, ?_⟩
  intro w hw
  obtain ⟨v, hv, hwv⟩ := parseOrigin_ok _ _ _ ho w hw
  exact ⟨v, hv, hwv, by rw [hwv]; exact cleanUrl_endsWith v⟩

/-- Witness for the amended C6 at a concrete accepted configuration: the
path keeps its leading slash and the single trailing slash of the origin
is stripped. -/
theorem claim_C6_witness :
    (['/'] : List Char).isPrefixOf ("/a".toList) = true ∧
    (∃ v, some ("https://x.test/".toList) = some v ∧
      "https://x.test".toList = cleanUrl v ∧
      jsEndsWith ("https://x.test".toList) ['/'] = jsEndsWith v ['/', '/']) :=
  ⟨(claim_C6_amended (fun _ => true) (some ("https://x.test/".toList))
      (some ("/a".toList)) (some ("https://x.test".toList)) ("/a".toList) rfl).1,
   (claim_C6_amended (fun _ => true) (some ("https://x.test/".toList))
      (some ("/a".toList)) (some ("https://x.test".toList)) ("/a".toList) rfl).2
     ("https://x.test".toList) rfl⟩

theorem forkHeadersS_addr (σ : HStore) (classH : HeadersArg) (p : Nat)
    (cfgH : HeadersArg) : (forkHeadersS σ classH p cfgH).1 = σ.length + 1 := by
  show (mergeHeadersS (mergeHeadersS σ _ _).2 _ _).1 = _
  rw [mergeHeadersS_addr, length_mergeHeadersS]

theorem forkIntcArrS_addr (τ : AStore) (c p i : Nat) :
    (forkIntcArrS τ c p i).1 = τ.length + 1 := by
  show (mergeIntcArrS (mergeIntcArrS τ _ _).2 _ _).1 = _
  rw [mergeIntcArrS_addr, length_mergeIntcArrS]

/-- C7: for a client P constructed from the current class baselines,
`P.fork(config, interceptors)` returns a client whose defaults agree with
`mergeConfig(P.defaults, config)` on every scalar field and every header,
and whose interceptors equal `mergeInterceptors(P.interceptors,
interceptors)` on the nose (the constructor re-merges the class baselines,
which the merge absorbs).  In the store model, the forked client receives
freshly allocated headers and interceptor arrays, so a later `set` through
any pre-existing reference (in particular the parent headers or arrays)
leaves the fork unchanged and a `set` or push through the fork leaves the
parent unchanged. -/
theorem claim_C7_fork (CD : ConfigInput) (CI : Interceptors)
    (c0 config : ConfigInput) (i0 intc : InterceptorsInput) (P : ClientState)
    (hP : P = mkClient CD CI c0 i0)
    (hCDsc : (keysOf CD.scalars).Nodup)
    (hc0sc : (keysOf c0.scalars).Nodup)
    (hcfgsc : (keysOf config.scalars).Nodup)
    (hCDh : (keysOf (lowerEntries (entriesOrNil CD.headers))).Nodup)
    (hc0h : (keysOf (lowerEntries (entriesOrNil c0.headers))).Nodup)
    (hcfgh : (keysOf (lowerEntries (entriesOrNil config.headers))).Nodup) :
    (∀ k, getScalar (forkClient CD CI P config intc).defaults k
        = getScalar (mergeConfig P.defaults config) k) ∧
    (∀ k, getHeader (forkClient CD CI P config intc).defaults k
        = getHeader (mergeConfig P.defaults config) k) ∧
    (forkClient CD CI P config intc).interceptors
        = mergeInterceptors (toInput P.interceptors) intc ∧
    (∀ (σ : HStore) (pAddr : Nat) (classH cfgH : HeadersArg),
      pAddr < σ.length →
        (forkHeadersS σ classH pAddr cfgH).1 ≠ pAddr ∧
        (∀ k v, readCell (hsetCell (forkHeadersS σ classH pAddr cfgH).2 pAddr k v)
            (forkHeadersS σ classH pAddr cfgH).1
          = readCell (forkHeadersS σ classH pAddr cfgH).2
              (forkHeadersS σ classH pAddr cfgH).1) ∧
        (∀ k v, readCell (hsetCell (forkHeadersS σ classH pAddr cfgH).2
            (forkHeadersS σ classH pAddr cfgH).1 k v) pAddr
          = readCell (forkHeadersS σ classH pAddr cfgH).2 pAddr)) ∧
    (∀ (τ : AStore) (classArr pArr inArr : Nat),
      pArr < τ.length →
        (forkIntcArrS τ classArr pArr inArr).1 ≠ pArr ∧
        (∀ x, readCell (pushCellIfNew (forkIntcArrS τ classArr pArr inArr).2 pArr x)
            (forkIntcArrS τ classArr pArr inArr).1
          = readCell (forkIntcArrS τ classArr pArr inArr).2
              (forkIntcArrS τ classArr pArr inArr).1) ∧
        (∀ x, readCell (pushCellIfNew (forkIntcArrS τ classArr pArr inArr).2
            (forkIntcArrS τ classArr pArr inArr).1 x) pArr
          = readCell (forkIntcArrS τ classArr pArr inArr).2 pArr)) := by
  subst hP
  refine ⟨?scal, ?hdr, ?intc, ?hstore, ?astore⟩
  case scal =>
    intro k
    have hPnd : (keysOf (foldAssign CD.scalars c0.scalars)).Nodup :=
      nodup_keysOf_foldAssign _ _ hCDsc
    have hMnd : (keysOf (foldAssign (foldAssign CD.scalars c0.scalars)
        config.scalars)).Nodup :=
      nodup_keysOf_foldAssign _ _ hPnd
    show alookup k (foldAssign CD.scalars
        (foldAssign (foldAssign CD.scalars c0.scalars) config.scalars))
      = alookup k (foldAssign (foldAssign CD.scalars c0.scalars) config.scalars)
    rw [alookup_foldAssign k _ _ hMnd, alookup_foldAssign k _ _ hcfgsc,
      alookup_foldAssign k _ _ hc0sc]
    exact or_absorb_right _ _ _
  case hdr =>
    intro k
    have hPh : LoweredKeys (mergeHeaders CD.headers c0.headers) :=
      loweredKeys_mergeHeaders _ _
    have hPhnd : (keysOf (mergeHeaders CD.headers c0.headers)).Nodup :=
      nodup_keysOf_mergeHeaders _ _
    have hMh : LoweredKeys (mergeHeaders
        (some (mergeHeaders CD.headers c0.headers)) config.headers) :=
      loweredKeys_mergeHeaders _ _
    have hMhnd : (keysOf (mergeHeaders
        (some (mergeHeaders CD.headers c0.headers)) config.headers)).Nodup :=
      nodup_keysOf_mergeHeaders _ _
    have hPhargnd : (keysOf (lowerEntries (entriesOrNil
        (some (mergeHeaders CD.headers c0.headers))))).Nodup := by
      show (keysOf (lowerEntries (mergeHeaders CD.headers c0.headers))).Nodup
      rw [lowerEntries_of_loweredKeys _ hPh]
      exact hPhnd
    have hMhargnd : (keysOf (lowerEntries (entriesOrNil
        (some (mergeHeaders (some (mergeHeaders CD.headers c0.headers))
          config.headers))))).Nodup := by
      show (keysOf (lowerEntries (mergeHeaders
        (some (mergeHeaders CD.headers c0.headers)) config.headers))).Nodup
      rw [lowerEntries_of_loweredKeys _ hMh]
      exact hMhnd
    have e1 : hget (mergeHeaders CD.headers c0.headers) k
        = (alookup (lowerStr k) (lowerEntries (entriesOrNil c0.headers))).or
          (alookup (lowerStr k) (lowerEntries (entriesOrNil CD.headers))) :=
      hget_mergeHeaders_opt _ _ _ hCDh hc0h
    have e2 : hget (mergeHeaders (some (mergeHeaders CD.headers c0.headers))
          config.headers) k
        = (alookup (lowerStr k) (lowerEntries (entriesOrNil config.headers))).or
          (hget (mergeHeaders CD.headers c0.headers) k) := by
      rw [hget_mergeHeaders_opt _ _ _ hPhargnd hcfgh]
      simp only [entriesOrNil]
      rw [lowerEntries_of_loweredKeys _ hPh]
      rfl
    have e3 : hget (mergeHeaders CD.headers
          (some (mergeHeaders (some (mergeHeaders CD.headers c0.headers))
            config.headers))) k
        = (hget (mergeHeaders (some (mergeHeaders CD.headers c0.headers))
            config.headers) k).or
          (alookup (lowerStr k) (lowerEntries (entriesOrNil CD.headers))) := by
      rw [hget_mergeHeaders_opt _ _ _ hCDh hMhargnd]
      simp only [entriesOrNil]
      rw [lowerEntries_of_loweredKeys _ hMh]
      rfl
    show hget (mergeHeaders CD.headers
        (some (mergeHeaders (some (mergeHeaders CD.headers c0.headers))
          config.headers))) k
      = hget (mergeHeaders (some (mergeHeaders CD.headers c0.headers))
          config.headers) k
    rw [e3, e2, e1]
    exact or_absorb_right _ _ _
  case intc =>
    show mergeInterceptors (toInput CI)
        (toInput (mergeInterceptors
          (toInput (mergeInterceptors (toInput CI) i0)) intc))
      = mergeInterceptors (toInput (mergeInterceptors (toInput CI) i0)) intc
    simp only [mergeInterceptors, toInput, Option.getD_some]
    congr 1
    · exact dedupGo_absorb_left _ _ _
    · exact dedupGo_absorb_left _ _ _
  case hstore =>
    intro σ pAddr classH cfgH hlt
    refine ⟨by rw [forkHeadersS_addr]; omega, ?_, ?_⟩
    · intro k v
      exact readCell_hsetCell_ne _ _ _ _ _ (by rw [forkHeadersS_addr]; omega)
    · intro k v
      exact readCell_hsetCell_ne _ _ _ _ _ (by rw [forkHeadersS_addr]; omega)
  case astore =>
    intro τ classArr pArr inArr hlt
    refine ⟨by rw [forkIntcArrS_addr]; omega, ?_, ?_⟩
    · intro x
      exact readCell_pushCellIfNew_ne _ _ _ _ (by rw [forkIntcArrS_addr]; omega)
    · intro x
      exact readCell_pushCellIfNew_ne _ _ _ _ (by rw [forkIntcArrS_addr]; omega)

/-- Witness for C7 at concrete class baselines, instance state and
overrides: scalar and header agreement at sample names, exact interceptor
equality, and the freshness of the forked headers cell and interceptor
array in concrete stores. -/
theorem claim_C7_witness :
    getScalar (forkClient ⟨[("cache", .str "d")], some [("A", "1")]⟩ ⟨[5], [6]⟩
        (mkClient ⟨[("cache", .str "d")], some [("A", "1")]⟩ ⟨[5], [6]⟩
          ⟨[], some [("x", "0")]⟩ ⟨some [7], none⟩)
        ⟨[("delay", .num 2)], some [("b", "2")]⟩
        ⟨some [8], some [6]⟩).defaults "delay"
      = getScalar (mergeConfig
          (mkClient ⟨[("cache", .str "d")], some [("A", "1")]⟩ ⟨[5], [6]⟩
            ⟨[], some [("x", "0")]⟩ ⟨some [7], none⟩).defaults
          ⟨[("delay", .num 2)], some [("b", "2")]⟩) "delay" ∧
    getHeader (forkClient ⟨[("cache", .str "d")], some [("A", "1")]⟩ ⟨[5], [6]⟩
        (mkClient ⟨[("cache", .str "d")], some [("A", "1")]⟩ ⟨[5], [6]⟩
          ⟨[], some [("x", "0")]⟩ ⟨some [7], none⟩)
        ⟨[("delay", .num 2)], some [("b", "2")]⟩
        ⟨some [8], some [6]⟩).defaults "a"
      = getHeader (mergeConfig
          (mkClient ⟨[("cache", .str "d")], some [("A", "1")]⟩ ⟨[5], [6]⟩
            ⟨[], some [("x", "0")]⟩ ⟨some [7], none⟩).defaults
          ⟨[("delay", .num 2)], some [("b", "2")]⟩) "a" ∧
    (forkClient ⟨[("cache", .str "d")], some [("A", "1")]⟩ ⟨[5], [6]⟩
        (mkClient ⟨[("cache", .str "d")], some [("A", "1")]⟩ ⟨[5], [6]⟩
          ⟨[], some [("x", "0")]⟩ ⟨some [7], none⟩)
        ⟨[("delay", .num 2)], some [("b", "2")]⟩
        ⟨some [8], some [6]⟩).interceptors
      = mergeInterceptors
          (toInput (mkClient ⟨[("cache", .str "d")], some [("A", "1")]⟩ ⟨[5], [6]⟩
            ⟨[], some [("x", "0")]⟩ ⟨some [7], none⟩).interceptors)
          ⟨some [8], some [6]⟩ ∧
    (forkHeadersS [[("a", "1")]] (.record [("A", "1")]) 0
        (.record [("b", "2")])).1 ≠ 0 ∧
    (forkIntcArrS [[5], [7]] 0 1 1).1 ≠ 1 :=
  ⟨(claim_C7_fork (⟨[("cache", .str "d")], some [("A", "1")]⟩ : ConfigInput)
      (⟨[5], [6]⟩ : Interceptors) ⟨[], some [("x", "0")]⟩
      ⟨[("delay", .num 2)], some [("b", "2")]⟩ ⟨some [7], none⟩
      ⟨some [8], some [6]⟩ _ rfl (by decide) (by decide) (by decide)
      (by decide) (by decide) (by decide)).1 "delay",
   (claim_C7_fork (⟨[("cache", .str "d")], some [("A", "1")]⟩ : ConfigInput)
      (⟨[5], [6]⟩ : Interceptors) ⟨[], some [("x", "0")]⟩
      ⟨[("delay", .num 2)], some [("b", "2")]⟩ ⟨some [7], none⟩
      ⟨some [8], some [6]⟩ _ rfl (by decide) (by decide) (by decide)
      (by decide) (by decide) (by decide)).2.1 "a",
   (claim_C7_fork (⟨[("cache", .str "d")], some [("A", "1")]⟩ : ConfigInput)
      (⟨[5], [6]⟩ : Interceptors) ⟨[], some [("x", "0")]⟩
      ⟨[("delay", .num 2)], some [("b", "2")]⟩ ⟨some [7], none⟩
      ⟨some [8], some [6]⟩ _ rfl (by decide) (by decide) (by decide)
      (by decide) (by decide) (by decide)).2.2.1,
   ((claim_C7_fork (⟨[("cache", .str "d")], some [("A", "1")]⟩ : ConfigInput)
      (⟨[5], [6]⟩ : Interceptors) ⟨[], some [("x", "0")]⟩
      ⟨[("delay", .num 2)], some [("b", "2")]⟩ ⟨some [7], none⟩
      ⟨some [8], some [6]⟩ _ rfl (by decide) (by decide) (by decide)
      (by decide) (by decide) (by decide)).2.2.2.1
      [[("a", "1")]] 0 (.record [("A", "1")]) (.record [("b", "2")])
      (by decide)).1,
   ((claim_C7_fork (⟨[("cache", .str "d")], some [("A", "1")]⟩ : ConfigInput)
      (⟨[5], [6]⟩ : Interceptors) ⟨[], some [("x", "0")]⟩
      ⟨[("delay", .num 2)], some [("b", "2")]⟩ ⟨some [7], none⟩
      ⟨some [8], some [6]⟩ _ rfl (by decide) (by decide) (by decide)
      (by decide) (by decide) (by decide)).2.2.2.2
      [[5], [7]] 0 1 1 (by decide)).1⟩

/-- C8 counterexample: the claim states that every anonymous interceptor
function is rejected by validation.  A genuine JavaScript function always
has a string `name` property — an anonymous function has the empty string,
never `undefined` — so the check `value.name !== undefined` is vacuous and
an anonymous unary function is accepted. -/
theorem claim_C8_counterexample :
    isValidateInterceptor (.func "" 1) = true := by decide

/-- C8 (amended): interceptor validation accepts exactly the function
values of arity at least one, regardless of their name: non-functions and
zero-arity functions are rejected, while anonymous functions of positive
arity pass, because the name of a function is never `undefined`. -/
theorem claim_C8_amended (v : JsValue) :
    isValidateInterceptor v = true ↔ ∃ n a, v = .func n a ∧ 0 < a := by
  cases v with
  | func n a =>
    simp only [isValidateInterceptor, typeofFunction, namePropOf, arityOf]
    constructor
    · intro h
      refine ⟨n, a, rfl, ?_⟩
      have h2 := (Bool.and_eq_true _ _).mp h
      exact of_decide_eq_true h2.2
    · rintro ⟨n1, a1, heq, ha⟩
      injection heq with hn1 ha1
      subst ha1
      simp [ha]
  | other =>
    simp only [isValidateInterceptor, typeofFunction]
    constructor
    · intro h
      simp at h
    · rintro ⟨n, a, heq, _⟩
      exact JsValue.noConfusion heq

/-- C9: resolving the body of a response a second time changes nothing:
the same `content` and `data` come back and no second underlying body read
happens (the read counter stays put), because the first resolution marks
the body used and `resolveBody` checks `bodyUsed` first. -/
theorem claim_C9_resolveBody_idem (parse : String → String) (r : HttpRespS) :
    resolveBody parse (resolveBody parse r) = resolveBody parse r ∧
    (resolveBody parse (resolveBody parse r)).content
        = (resolveBody parse r).content ∧
    (resolveBody parse (resolveBody parse r)).data
        = (resolveBody parse r).data ∧
    (resolveBody parse (resolveBody parse r)).reads
        = (resolveBody parse r).reads := by
  have key : resolveBody parse (resolveBody parse r) = resolveBody parse r := by
    cases hb : r.bodyUsed with
    | false =>
      have h1 : (resolveBody parse r).bodyUsed = true := by
        rw [resolveBody, if_pos hb]
        by_cases hj : jsIncludes (contentTypeOf r) "json" = true
        · rw [if_pos hj]
          rfl
        · rw [if_neg hj]
          rfl
      rw [resolveBody]
      rw [if_neg (by rw [h1]; exact fun hc => Bool.noConfusion hc)]
    | true =>
      have h0 : resolveBody parse r = r := by
        rw [resolveBody, if_neg (by rw [hb]; exact fun hc => Bool.noConfusion hc)]
      rw [h0, h0]
  exact ⟨key, by rw [key], by rw [key], by rw [key]⟩

/-- C10: `mergeConfig(a,b)` always returns a configuration whose headers
field is present — a reference to a `Headers` collection freshly allocated
at the first free address — even when one or both inputs omit headers
entirely; the fresh address differs from every valid address, in
particular from the addresses of the input headers objects, and a `set`
through any pre-existing reference leaves the merged collection unchanged
while a `set` through the merged reference leaves every pre-existing
collection unchanged. -/
theorem claim_C10_fresh_headers (σ : HStore) (a b : ConfigArg) :
    (mergeConfigS σ a b).1.headersA = .ref σ.length ∧
    (∀ p, p < σ.length →
      σ.length ≠ p ∧
      (∀ k v, readCell (hsetCell (mergeConfigS σ a b).2 p k v) σ.length
          = readCell (mergeConfigS σ a b).2 σ.length) ∧
      (∀ k v, readCell (hsetCell (mergeConfigS σ a b).2 σ.length k v) p
          = readCell (mergeConfigS σ a b).2 p)) := by
  refine ⟨rfl, ?_⟩
  intro p hp
  refine ⟨by omega, ?_, ?_⟩
  · intro k v
    exact readCell_hsetCell_ne _ _ _ _ _ (by omega)
  · intro k v
    exact readCell_hsetCell_ne _ _ _ _ _ (by omega)

/-- Witness for C10: a store holding one `Headers` object at address 0, a
configuration referencing it merged with one that omits headers; the
merged configuration references the fresh address 1 and mutation through
either reference leaves the other collection unchanged. -/
theorem claim_C10_witness :
    (mergeConfigS [[("a", "1")]] ⟨[], .ref 0⟩ ⟨[], .undef⟩).1.headersA
        = .ref 1 ∧
    (1 : Nat) ≠ 0 ∧
    readCell (hsetCell (mergeConfigS [[("a", "1")]]
        ⟨[], .ref 0⟩ ⟨[], .undef⟩).2 0 "c" "9") 1
      = readCell (mergeConfigS [[("a", "1")]] ⟨[], .ref 0⟩ ⟨[], .undef⟩).2 1 ∧
    readCell (hsetCell (mergeConfigS [[("a", "1")]]
        ⟨[], .ref 0⟩ ⟨[], .undef⟩).2 1 "c" "9") 0
      = readCell (mergeConfigS [[("a", "1")]] ⟨[], .ref 0⟩ ⟨[], .undef⟩).2 0 :=
  ⟨(claim_C10_fresh_headers [[("a", "1")]] ⟨[], .ref 0⟩ ⟨[], .undef⟩).1,
   ((claim_C10_fresh_headers [[("a", "1")]] ⟨[], .ref 0⟩ ⟨[], .undef⟩).2
      0 (by decide)).1,
   ((claim_C10_fresh_headers [[("a", "1")]] ⟨[], .ref 0⟩ ⟨[], .undef⟩).2
      0 (by decide)).2.1 "c" "9",
   ((claim_C10_fresh_headers [[("a", "1")]] ⟨[], .ref 0⟩ ⟨[], .undef⟩).2
      0 (by decide)).2.2 "c" "9"⟩
